import Mathlib

/-!
# Shallow embedding of `lib/run.js` (cdkit.ui.automation)

This file embeds the orchestration logic of `lib/run.js` — the suite
resolver (`transform`), the build pipeline (`buildTestApps`), the
capability-matrix builder (`createTests`), the Genymotion readiness watch
(`launchGeny`) and the Appium teardown (`killAppium`) — and proves the
specification claims about them.

Modelling conventions:
* JavaScript strings are Lean `String`s; the string operations the source
  uses (`split`, `slice`, concatenation, `path.join`) are reimplemented
  below with JavaScript semantics.
* The filesystem is a read oracle `fsExists : String → Bool` (`fs.statSync`).
* `process.exit(1)` and uncaught `TypeError`s are modelled as `Except`
  errors; resolving a promise chain is normal return.
* External process steps (`appc`, `change`) are recorded in an explicit
  trace list; the source runs them strictly sequentially (each `appc`
  wires `next` to the child process's `exit` event), so trace order is
  temporal order.
* The non-win32 (`os.platform() !== 'win32'`) code paths are modelled,
  with `path.sep = '/'`; the win32 variants differ only in executable
  names, which no claim depends on (except `killAppium`, where both OS
  branches are modelled).
-/

/-- The `TEST_DIR` constant at the top of `lib/run.js`. -/
def TEST_DIR : String := "ui-tests"

/-- The directory of the module (`__dirname` in `lib/run.js`); modelled as the
bare directory name, since no claim depends on its absolute value. -/
def dirname : String := "lib"

/-- JavaScript truthiness of an optional string argument, as used by
`suiteArg || ''`, `!platformArg` and `if (!tiSdk)` in the source. -/
def strTruthy (s : Option String) : Bool := s.getD "" != ""

/-- Node's `path.join` on the segment lists the source uses: empty segments are
dropped and the rest joined with '/'. Normalisation of '.'/'..' segments is
not modelled (no claim depends on it). -/
def pathJoin (parts : List String) : String :=
  String.intercalate "/" (parts.filter fun p => p != "")

/-- JavaScript `s.slice(0, e)` for a possibly negative end index `e`:
a negative end counts from the end of the string, the result is clamped. -/
def jsSlice0 (s : String) (e : Int) : String :=
  let n : Int := (s.length : Int)
  let stop : Int := if e < 0 then max (n + e) 0 else min e n
  String.mk (s.data.take stop.toNat)

/-- Worker for `jsSplit`: splits the character list at each separator,
accumulating the current (reversed) chunk. -/
def splitCharAux (sep : Char) : List Char → List Char → List String
  | [], acc => [String.mk acc.reverse]
  | c :: cs, acc =>
    if c == sep then String.mk acc.reverse :: splitCharAux sep cs []
    else splitCharAux sep cs (c :: acc)

/-- JavaScript `s.split(sep)` for a one-character separator; in particular
`''.split(sep) = ['']`, exactly as in JavaScript. -/
def jsSplit (s : String) (sep : Char) : List String := splitCharAux sep s.data []

/-- `getAbsolutePath(app, file)` from `lib/run.js`:
`path.join(__dirname, '..', TEST_DIR, app, file)`. -/
def getAbsolutePath (app file : String) : String :=
  pathJoin [dirname, "..", TEST_DIR, app, file]

/-! ## Genymotion readiness watch (`launchGeny`, the `fs.watchFile` callback)

The watch re-reads the player log and matches the chunk against
`/\d+-\d+-\d+T\d+:\d+:\d+\+\d+:\d+ \[Genymotion Player:\d+\] \[debug\] Device booted in \d+ ms/g`.
A chunk is modelled as the ordered list of its segments: each segment either
matches that boot pattern — carrying the `Date.parse` value of its embedded
timestamp and the `\d+` boot duration — or does not. Timestamps that
`Date.parse` rejects are not modelled (on such a line the code computes
`NaN` deltas and never resolves, which no claim exercises). -/

/-- One substring of the log chunk matching the full boot pattern: `ts` is
`Date.parse` of the leading timestamp (ms since epoch), `bootMs` the digits
of `Device booted in <bootMs> ms`. -/
structure BootMatch where
  ts : Int
  bootMs : Nat
deriving DecidableEq

/-- A segment of the log chunk, as classified by the boot-pattern regex. -/
inductive GenyChunkPart
  | boot (b : BootMatch)
  | other
deriving DecidableEq

/-- The `matches` array: all boot-pattern matches of the chunk, in order. -/
def bootMatches (chunk : List GenyChunkPart) : List BootMatch :=
  chunk.filterMap fun part =>
    match part with
    | .boot b => some b
    | .other => none

/-- Check whether `pat` is a leading segment of `l`. -/
def isPrefixList : List Char → List Char → Bool
  | [], _ => true
  | _ :: _, [] => false
  | c :: cs, d :: ds => c == d && isPrefixList cs ds

/-- Search `l` for an occurrence of `pat` followed by at least one further
character — the semantics of testing the regex `pat.+` against `l`. -/
def findFollowed (pat : List Char) : List Char → Bool
  | [] => false
  | c :: cs =>
    (isPrefixList pat (c :: cs) && decide (pat.length < (c :: cs).length))
      || findFollowed pat cs

/-- The trailing text of a matched boot line: `Device booted in <bootMs> ms`. -/
def bootedInText (bootMs : Nat) : String :=
  "Device booted in " ++ Nat.repr bootMs ++ " ms"

/-- The source's stricter test `/Device booted in .+/g.test(lastLine)`.
Inside a full boot-pattern match the literal `Device booted in ` can only
occur in the trailing text (the timestamp and player-tag parts are digits
and fixed punctuation), so the test is computed on that trailing text. -/
def bootedInTest (bootMs : Nat) : Bool :=
  findFollowed "Device booted in ".data (bootedInText bootMs).data

/-- The resolve condition the callback applies to the last match:
`deltaTime <= 10000 && /Device booted in .+/g.test(lastLine)` with
`deltaTime = Date.now() - logTime`. -/
def bootLineCheck (now : Int) (b : BootMatch) : Bool :=
  decide (now - b.ts ≤ 10000) && bootedInTest b.bootMs

/-- One invocation of the `fs.watchFile` stream callback in `launchGeny` on a
log chunk, at current time `now` (`Date.now()`): returns `true` exactly when
the callback unwatches the file and resolves the launch promise; on `false`
the callback returns without resolving and the watch keeps watching. -/
def genyDataCb (now : Int) (chunk : List GenyChunkPart) : Bool :=
  match (bootMatches chunk).getLast? with
  | none => false
  | some lastLine => bootLineCheck now lastLine

/-! ## Configuration model

`config.js` of an app maps `platform → key → value`, where each per-platform
object holds the reserved key `desiredCapabilities` (a capability map) next
to the suite definitions. JavaScript objects are modelled as association
lists in key-insertion order (`Object.keys` order). -/

/-- An Appium capability object: capability key → value, in insertion order. -/
abbrev Cap := List (String × String)

/-- One test device declared for a suite (`testDevices` entries). -/
structure DeviceConfig where
  deviceName : String
  platformVersion : String
deriving DecidableEq

/-- One suite definition in `config.js`. -/
structure SuiteConfig where
  proj : String
  appPackage : String
  appActivity : String
  testDevices : List DeviceConfig
deriving DecidableEq

/-- A value in a per-platform config object: either the reserved
`desiredCapabilities` capability map or a suite definition. -/
inductive ConfigVal
  | caps (cap : Cap)
  | suiteDef (s : SuiteConfig)
deriving DecidableEq

/-- The entries of one platform's config object, in key order. -/
abbrev PlatformEntries := List (String × ConfigVal)

/-- The whole `config.js` export: platform name → entries, in key order. -/
abbrev ConfigTests := List (String × PlatformEntries)

/-! ## Suite resolver (`Helper.transform`) -/

/-- One resolved target, as pushed by `transform`:
`{ abs, name, platform }`. -/
structure TargetSuite where
  abs : String
  name : String
  platform : String
deriving DecidableEq

/-- How a `transform` run fails. -/
inductive TransformError
  | missingFile (file : String)
  | typeError (file : String)
  | badPlatform (file platform : String)
deriving DecidableEq

/-- The enumeration loop of `transform`: for every platform key and every
suite key other than `desiredCapabilities` that passes the platform filter,
append `` `${suite}${path.sep}${platform}.js,` `` to the accumulator. -/
def suiteEnumeration (config : ConfigTests) (platformArg : Option String) : String :=
  config.foldl
    (fun acc pEntry =>
      pEntry.2.foldl
        (fun acc2 sEntry =>
          if sEntry.1 != "desiredCapabilities"
              && (!(strTruthy platformArg) || platformArg == some pEntry.1) then
            acc2 ++ sEntry.1 ++ "/" ++ pEntry.1 ++ ".js,"
          else acc2)
        acc)
    ""

/-- The per-file body of the `files.forEach` loop in `transform`: stat the
file (exit 1 if missing), split off the suite and platform-file parts
(`parts[1]` being `undefined` raises a `TypeError` on `.length`), strip the
trailing `.js` with `slice`, validate the platform token, and build the
target record. -/
def transformFile (fsExists : String → Bool) (appArg : String) (file : String) :
    Except TransformError TargetSuite :=
  if !(fsExists (pathJoin [TEST_DIR, appArg, file])) then
    .error (.missingFile file)
  else
    let parts := jsSplit file '/'
    let suite := (parts.get? 0).getD ""
    match parts.get? 1 with
    | none => .error (.typeError file)
    | some platformFile =>
      let extensionIndex : Int := (platformFile.length : Int) - 3
      let platform := jsSlice0 platformFile extensionIndex
      if platform != "ios" && platform != "android" && platform != "windows" then
        .error (.badPlatform file platform)
      else
        .ok ⟨getAbsolutePath appArg file, suite, platform⟩

/-- `Helper.transform(appArg, suiteArg, platformArg)`: start from
`suiteArg || ''`, append the enumeration of all `(suite, platform)` pairs,
drop the final character, split on commas and resolve each file. -/
def transform (fsExists : String → Bool) (config : ConfigTests) (appArg : String)
    (suiteArg platformArg : Option String) : Except TransformError (List TargetSuite) :=
  let suiteFiles0 := suiteArg.getD "" ++ suiteEnumeration config platformArg
  let suiteFiles := jsSlice0 suiteFiles0 ((suiteFiles0.length : Int) - 1)
  let files := jsSplit suiteFiles ','
  files.mapM (transformFile fsExists appArg)

/-! ## Build pipeline (`Helper.buildTestApps`)

The pipeline is a promise chain; every `appc` helper call wires its `next`
continuation to the child process's `exit` event, so the external steps are
strictly sequential. The chain is embedded as the list of steps it performs,
in execution order. -/

/-- One external step of the build pipeline: an `appc(flags, next)` call
(recorded with the flags passed to the helper, before it appends
`--no-banner --no-services`), or a `change(tiappXml)` descriptor patch
(recorded with the memo key `tiProj` and the patched file). -/
inductive BuildStep
  | appc (flags : List String)
  | change (proj : String) (tiappXml : String)
deriving DecidableEq

/-- JavaScript truthiness of `tiappMod[tiProj]`: whether the key has been
marked in the memo object. -/
def memStr (p : String) (marked : List String) : Bool :=
  marked.any fun q => q == p

/-- `configTests[platform][name].proj`: `none` models the `TypeError` the
source raises when the platform or suite entry is missing (or the `.proj`
field is read off the reserved capability object, making the subsequent
`path.join` throw on `undefined`). -/
def configProj (config : ConfigTests) (platform name : String) : Option String :=
  match List.lookup platform config with
  | none => none
  | some tests =>
    match List.lookup name tests with
    | some (ConfigVal.suiteDef s) => some s.proj
    | _ => none

/-- The per-target tail of the promise chain in `buildTestApps`, threading
the `tiappMod` memo: look up the target's project, patch its `tiapp.xml`
unless already patched, then `appc ti clean` and `appc run --build-only`
scoped to the target's platform and project directory. A failed project
lookup rejects the chain: no further step runs. -/
def buildTestAppsGo (app : String) (config : ConfigTests) :
    List TargetSuite → List String → List BuildStep
  | [], _ => []
  | t :: rest, tiappMod =>
    match configProj config t.platform t.name with
    | none => []
    | some tiProj =>
      let tiProjDir := getAbsolutePath app (pathJoin [t.name, tiProj])
      let alreadyMod := memStr tiProj tiappMod
      (if alreadyMod then [] else [BuildStep.change tiProj (pathJoin [tiProjDir, "tiapp.xml"])])
        ++ [BuildStep.appc ["ti", "clean", "--platforms", t.platform,
              "--project-dir", tiProjDir],
            BuildStep.appc ["run", "--platform", t.platform,
              "--project-dir", tiProjDir, "--build-only"]]
        ++ buildTestAppsGo app config rest
            (if alreadyMod then tiappMod else tiProj :: tiappMod)

/-- `Helper.buildTestApps(app, suites, tiSdk, …)` as its step trace: without
a truthy `tiSdk` the method returns at once with no step; otherwise it runs
`appc ti sdk select` and then the per-target chain with an empty memo. -/
def buildTestApps (app : String) (config : ConfigTests) (suites : List TargetSuite)
    (tiSdk : Option String) : List BuildStep :=
  if !(strTruthy tiSdk) then []
  else
    BuildStep.appc ["ti", "sdk", "select", tiSdk.getD ""]
      :: buildTestAppsGo app config suites []

/-- Recognise descriptor-patch steps for the memo key `p`. -/
def isChangeFor (p : String) : BuildStep → Bool
  | .change proj _ => proj == p
  | _ => false

/-- Recognise descriptor-patch steps. -/
def isChangeStep : BuildStep → Bool
  | .change _ _ => true
  | _ => false

/-- Number of descriptor-patch executions in a trace. -/
def countChanges (trace : List BuildStep) : Nat :=
  (trace.filter isChangeStep).length

/-- Number of descriptor-patch executions for memo key `p` in a trace. -/
def countChangesFor (p : String) (trace : List BuildStep) : Nat :=
  (trace.filter (isChangeFor p)).length

/-- The project directory a target resolves to
(`getAbsolutePath(app, path.join(targetSuite.name, tiProj))`). -/
def projDirOf (app : String) (config : ConfigTests) (t : TargetSuite) : Option String :=
  (configProj config t.platform t.name).map fun proj =>
    getAbsolutePath app (pathJoin [t.name, proj])

/-- The clean and build steps `buildTestApps` issues for one target, in
order. -/
def cleanBuildStepsOf (app : String) (config : ConfigTests) (t : TargetSuite) :
    List BuildStep :=
  match configProj config t.platform t.name with
  | none => []
  | some tiProj =>
    let tiProjDir := getAbsolutePath app (pathJoin [t.name, tiProj])
    [BuildStep.appc ["ti", "clean", "--platforms", t.platform,
        "--project-dir", tiProjDir],
     BuildStep.appc ["run", "--platform", t.platform,
        "--project-dir", tiProjDir, "--build-only"]]

/-! ## The `appc` helper's exit handling -/

/-- What the pipeline does when a step's child process terminates. -/
inductive ExitAction
  | advance
  | fail
deriving DecidableEq

/-- The handler `appcCmd.on('exit', () => { logger.info('done'); next(); })`
installed by `appc(flags, next)`: it receives the child's exit `code` but its
parameter list is empty — the code is ignored and `next()` runs
unconditionally. -/
def appcOnExit (code : Int) : ExitAction := ExitAction.advance

/-! ## Capability matrix builder (`Helper.createTests`)

`desiredCap` is the very object stored in the configuration
(`tests.desiredCapabilities`), so the platform-specific assignments write
through to it; only the per-device `Object.assign({}, desiredCap)` copy is
fresh. The mutation is modelled by threading the configuration state.
JavaScript property assignment keeps an existing key in place and appends a
new key at the end of the object. -/

/-- Whether the capability object has key `k` (`k in obj`). -/
def capHas (cap : Cap) (k : String) : Bool :=
  cap.any fun p => p.1 == k

/-- Replace the value of the first entry with key `k`, keeping key order. -/
def replaceFirst {β : Type} : List (String × β) → String → β → List (String × β)
  | [], _, _ => []
  | (k2, v2) :: rest, k, v =>
    if k2 == k then (k2, v) :: rest else (k2, v2) :: replaceFirst rest k v

/-- JavaScript property assignment `cap[k] = v`: overwrite in place if the
key exists, else append it. -/
def capSet (cap : Cap) (k v : String) : Cap :=
  if capHas cap k then replaceFirst cap k v else cap ++ [(k, v)]

/-- The platform-specific enrichment `createTests` performs on
`desiredCap` for one target: `platformName`, the built-app path, and (for
android) `appPackage`/`appActivity`. The assignments hit the configuration's
own capability object. -/
def enrichCaps (app : String) (t : TargetSuite) (configSuite : SuiteConfig)
    (desiredCap : Cap) : Cap :=
  let tiBuildDir := pathJoin [t.name, configSuite.proj, "build"]
  if t.platform == "ios" then
    let c1 := capSet desiredCap "platformName" "iOS"
    let iosApp := pathJoin [tiBuildDir, "iphone", "build", "Products",
      "Debug-iphonesimulator", configSuite.proj ++ ".app"]
    capSet c1 "app" (getAbsolutePath app iosApp)
  else if t.platform == "android" then
    let c1 := capSet desiredCap "platformName" "Android"
    let c2 := capSet c1 "appPackage" configSuite.appPackage
    let c3 := capSet c2 "appActivity" configSuite.appActivity
    let androidApk := pathJoin [tiBuildDir, "android", "bin", configSuite.proj ++ ".apk"]
    capSet c3 "app" (getAbsolutePath app androidApk)
  else if t.platform == "windows" then
    capSet desiredCap "platformName" "Windows"
  else desiredCap

/-- One `{ suite, cap }` pair pushed onto `listOfTests`. -/
structure TestPair where
  suite : String
  cap : Cap
deriving DecidableEq

/-- The `configSuite.testDevices.forEach` loop: each device gets a fresh
shallow copy of the enriched capability object
(`Object.assign({}, desiredCap)`) with its `deviceName` and
`platformVersion` written on top. -/
def devicePairs (abs : String) (enriched : Cap) (devices : List DeviceConfig) :
    List TestPair :=
  devices.map fun d =>
    { suite := abs
      cap := capSet (capSet enriched "deviceName" d.deviceName)
        "platformVersion" d.platformVersion }

/-- Write the (mutated) capability object back into the configuration: the
platform's `desiredCapabilities` entry is the same heap object the code
assigned through. -/
def updateCaps (config : ConfigTests) (pl : String) (c : Cap) : ConfigTests :=
  match List.lookup pl config with
  | none => config
  | some tests =>
    replaceFirst config pl (replaceFirst tests "desiredCapabilities" (ConfigVal.caps c))

/-- The body of `createTests`, threading the configuration state through the
targets. `none` models the `TypeError`s raised on a missing platform object,
a missing/ill-typed `desiredCapabilities` entry, or a missing suite entry
(`configSuite.proj` on `undefined`). -/
def createTestsGo (app : String) :
    List TargetSuite → ConfigTests → Option (List TestPair × ConfigTests)
  | [], config => some ([], config)
  | t :: rest, config =>
    match List.lookup t.platform config with
    | none => none
    | some tests =>
      match List.lookup "desiredCapabilities" tests, List.lookup t.name tests with
      | some (ConfigVal.caps desiredCap), some (ConfigVal.suiteDef configSuite) =>
        let enriched := enrichCaps app t configSuite desiredCap
        let pairs := devicePairs t.abs enriched configSuite.testDevices
        match createTestsGo app rest (updateCaps config t.platform enriched) with
        | none => none
        | some (restPairs, configF) => some (pairs ++ restPairs, configF)
      | _, _ => none

/-- `Helper.createTests(app, suites)`: the produced `(suite, capability)`
pairs together with the configuration state after the run (the source keeps
it implicit in the mutated `require` cache). -/
def createTests (app : String) (config : ConfigTests) (suites : List TargetSuite) :
    Option (List TestPair × ConfigTests) :=
  createTestsGo app suites config

/-- The platform's base capability object currently stored in the
configuration (`configTests[pl].desiredCapabilities`). -/
def capsAt (config : ConfigTests) (pl : String) : Option Cap :=
  match List.lookup pl config with
  | none => none
  | some tests =>
    match List.lookup "desiredCapabilities" tests with
    | some (ConfigVal.caps c) => some c
    | _ => none

/-- The device list declared for a target
(`configTests[t.platform][t.name].testDevices`). -/
def devicesOf (config : ConfigTests) (t : TargetSuite) : Option (List DeviceConfig) :=
  match List.lookup t.platform config with
  | none => none
  | some tests =>
    match List.lookup t.name tests with
    | some (ConfigVal.suiteDef s) => some s.testDevices
    | _ => none

/-- The capability keys `createTests` assigns on the shared base object. -/
def enrichKeys : List String := ["platformName", "app", "appPackage", "appActivity"]

/-! ## Appium teardown (`Helper.killAppium`) -/

/-- The handle `spawn()` returns for the Appium server process. -/
structure ProcHandle where
  pid : Nat
deriving DecidableEq

/-- The module-global `let appiumProc = null;` before any `runAppium` call. -/
def appiumProcInit : Option ProcHandle := none

/-- The assignment `appiumProc = spawn(cmd, flags)` performed by
`runAppium`. -/
def runAppiumSet (spawned : ProcHandle) : Option ProcHandle := some spawned

/-- What one `killAppium` call does. -/
inductive KillOutcome
  | taskkill (pid : Nat)
  | kill
  | nullDeref
deriving DecidableEq

/-- `Helper.killAppium()`: on win32 it spawns
`taskkill /PID appiumProc.pid /T /F`, elsewhere it calls
`appiumProc.kill()`. With the handle still `null`, reading `.pid` or calling
`.kill()` raises a `TypeError` (`nullDeref`) on either branch. -/
def killAppium (isWin32 : Bool) (proc : Option ProcHandle) : KillOutcome :=
  match proc with
  | none => KillOutcome.nullDeref
  | some p => if isWin32 then KillOutcome.taskkill p.pid else KillOutcome.kill

/-! ## Helper lemmas -/

/-! ## Concrete inputs for counterexamples and witnesses -/

/-- A configuration with a single android suite `Smoke`, used as concrete
input for the suite-resolver claims. -/
def c3Config : ConfigTests :=
  [("android", [("desiredCapabilities", ConfigVal.caps []),
    ("Smoke", ConfigVal.suiteDef ⟨"SmokeApp", "", "", []⟩)])]

/-- A configuration whose three resolvable targets map to projects all named
`App`: targets `(suiteA, android)` and `(suiteA, ios)` share the project
directory `suiteA/App`, while `(suiteB, android)` resolves to the distinct
project `suiteB/App` with the same project name. -/
def c2Config : ConfigTests :=
  [("android", [("suiteA", ConfigVal.suiteDef ⟨"App", "", "", []⟩),
                ("suiteB", ConfigVal.suiteDef ⟨"App", "", "", []⟩)]),
   ("ios", [("suiteA", ConfigVal.suiteDef ⟨"App", "", "", []⟩)])]

/-- Three targets for `c2Config`: the first two share a project, the third
references a distinct project that happens to reuse the project name. -/
def c2Suites : List TargetSuite :=
  [⟨"a1", "suiteA", "android"⟩, ⟨"a2", "suiteA", "ios"⟩,
   ⟨"a3", "suiteB", "android"⟩]

/-- A well-named two-project configuration for the build-pipeline
witnesses. -/
def c2wConfig : ConfigTests :=
  [("android", [("suiteA", ConfigVal.suiteDef ⟨"A", "", "", []⟩),
                ("suiteB", ConfigVal.suiteDef ⟨"B", "", "", []⟩)])]

/-- The suite definition used by the capability-matrix counterexample. -/
def c8Suite : SuiteConfig := ⟨"Sample", "com.pkg", "MainActivity", [⟨"emu", "7.0"⟩]⟩

/-- A one-platform configuration whose android base capabilities hold a
single entry before `createTests` runs. -/
def c8Config : ConfigTests :=
  [("android", [("desiredCapabilities", ConfigVal.caps [("noReset", "true")]),
    ("Login", ConfigVal.suiteDef c8Suite)])]

/-- The single android target for `c8Config`. -/
def c8Targets : List TargetSuite := [⟨"absLogin", "Login", "android"⟩]

/-- The android base capability object after `createTests` has run on
`c8Config`: the platform enrichment has been written through to it. -/
def c8Enriched : Cap :=
  [("noReset", "true"), ("platformName", "Android"), ("appPackage", "com.pkg"),
   ("appActivity", "MainActivity"),
   ("app", "lib/../ui-tests/app/Login/Sample/build/android/bin/Sample.apk")]

/-- The output pairs `createTests` produces on `c8Config`. -/
def c8Pairs : List TestPair :=
  [⟨"absLogin", c8Enriched ++ [("deviceName", "emu"), ("platformVersion", "7.0")]⟩]

/-- The configuration state after `createTests` has run on `c8Config`. -/
def c8Config2 : ConfigTests :=
  [("android", [("desiredCapabilities", ConfigVal.caps c8Enriched),
    ("Login", ConfigVal.suiteDef c8Suite)])]

/-- The two-device suite definition for the matrix witness. -/
def c9Suite : SuiteConfig :=
  ⟨"Sample", "com.pkg", "MainActivity", [⟨"emuA", "7.0"⟩, ⟨"emuB", "8.0"⟩]⟩

/-- A configuration declaring two test devices for one android suite. -/
def c9Config : ConfigTests :=
  [("android", [("desiredCapabilities", ConfigVal.caps []),
    ("Login", ConfigVal.suiteDef c9Suite)])]

/-- The single android target for `c9Config`. -/
def c9Targets : List TargetSuite := [⟨"absLogin", "Login", "android"⟩]

/-- The enriched android base capabilities for `c9Config`. -/
def c9Enriched : Cap :=
  [("platformName", "Android"), ("appPackage", "com.pkg"),
   ("appActivity", "MainActivity"),
   ("app", "lib/../ui-tests/app/Login/Sample/build/android/bin/Sample.apk")]

/-- The two output pairs `createTests` produces on `c9Config`. -/
def c9Pairs : List TestPair :=
  [⟨"absLogin", c9Enriched ++ [("deviceName", "emuA"), ("platformVersion", "7.0")]⟩,
   ⟨"absLogin", c9Enriched ++ [("deviceName", "emuB"), ("platformVersion", "8.0")]⟩]

/-- The configuration state after `createTests` has run on `c9Config`. -/
def c9Config2 : ConfigTests :=
  [("android", [("desiredCapabilities", ConfigVal.caps c9Enriched),
    ("Login", ConfigVal.suiteDef c9Suite)])]

theorem str_data_append (s t : String) : (s ++ t).data = s.data ++ t.data := rfl

theorem isPrefixList_append_self (pat rest : List Char) :
    isPrefixList pat (pat ++ rest) = true := by
  induction pat with
  | nil => rfl
  | cons c cs ih => simp [isPrefixList, ih]

theorem findFollowed_append_self (pat rest : List Char) (hp : pat ≠ [])
    (hr : rest ≠ []) : findFollowed pat (pat ++ rest) = true := by
  match pat with
  | [] => exact absurd rfl hp
  | c :: cs =>
    have h1 : isPrefixList (c :: cs) (c :: (cs ++ rest)) = true := by
      have := isPrefixList_append_self (c :: cs) rest
      rwa [List.cons_append] at this
    have h2 : (c :: cs).length < (c :: (cs ++ rest)).length := by
      have : 0 < rest.length := List.length_pos.mpr hr
      simp [List.length_append]
      omega
    rw [List.cons_append, findFollowed]
    simp [h1, h2]
    exact Or.inl (List.length_pos.mpr hr)

theorem bootedInTest_true (bootMs : Nat) : bootedInTest bootMs = true := by
  have hdata : (bootedInText bootMs).data
      = "Device booted in ".data ++ ((Nat.repr bootMs).data ++ " ms".data) := by
    simp [bootedInText, str_data_append, List.append_assoc]
  rw [bootedInTest, hdata]
  apply findFollowed_append_self
  · decide
  · intro h
    rw [List.append_eq_nil] at h
    exact absurd h.2 (by decide)

/-! ## Claim theorems -/

/-- C1: the `launchGeny` log watch resolves on an observed chunk exactly when
the last boot-pattern match has an embedded timestamp at most 10000 ms older
than the current time and also passes the stricter
`/Device booted in .+/` test; in particular a boot line 3 s old resolves the
watch, while a sole boot line 30 s old leaves it watching. -/
theorem geny_watch_resolves_iff_fresh_boot :
    (∀ (now : Int) (chunk : List GenyChunkPart),
        genyDataCb now chunk = true ↔
          ∃ b, (bootMatches chunk).getLast? = some b ∧
            now - b.ts ≤ 10000 ∧ bootedInTest b.bootMs = true)
    ∧ (∀ (now : Int) (bootMs : Nat),
        genyDataCb now [GenyChunkPart.boot ⟨now - 3000, bootMs⟩] = true)
    ∧ (∀ (now : Int) (bootMs : Nat),
        genyDataCb now [GenyChunkPart.boot ⟨now - 30000, bootMs⟩] = false) := by
  refine ⟨?_, ?_, ?_⟩
  · intro now chunk
    unfold genyDataCb
    cases h : (bootMatches chunk).getLast? with
    | none => simp
    | some b => simp [bootLineCheck, Bool.and_eq_true, decide_eq_true_eq]
  · intro now bootMs
    simp [genyDataCb, bootMatches, bootLineCheck, bootedInTest_true,
      decide_eq_true_eq]
  · intro now bootMs
    simp [genyDataCb, bootMatches, bootLineCheck, bootedInTest_true,
      decide_eq_false_iff_not]

/-- C5: the resolve decision of the `launchGeny` watch is governed solely by
the chronologically last boot-pattern match of the observed chunk: whatever
matches or non-matches precede it, the callback's outcome equals the
age-and-subpattern check on that last match alone. -/
theorem geny_watch_last_match_governs (now : Int) (pre post : List GenyChunkPart)
    (b : BootMatch) (h : bootMatches post = []) :
    genyDataCb now (pre ++ GenyChunkPart.boot b :: post) = bootLineCheck now b := by
  have hm : bootMatches (pre ++ GenyChunkPart.boot b :: post)
      = bootMatches pre ++ b :: bootMatches post := by
    simp [bootMatches]
  unfold genyDataCb
  rw [hm, h, List.getLast?_concat]

/-- C3 (code evaluated at the failing input): with the suite `Login/ios.js`
explicitly requested, `transform` does not use the requested list verbatim —
it still appends the enumerated pair `Smoke/android.js,` to the request
(without a separating comma) and strips the final character, so the run
fails on the mangled single entry instead of resolving the requested
suite. -/
theorem transform_appends_enumeration_to_requested :
    transform (fun _ => true) c3Config "app" (some "Login/ios.js") none
      = Except.error
          (TransformError.badPlatform "Login/ios.jsSmoke/android.js" "ios.jsSm") := by
  rfl

/-- C4 counterexample: no suites requested and the `ios` platform filter
leaves no pair from an android-only configuration, yet `transform` does not
return an empty target list — the empty accumulated string splits into one
empty file entry whose platform segment is `undefined`, raising a
`TypeError`. -/
theorem transform_empty_filter_cex :
    transform (fun _ => true) c3Config "app" none (some "ios")
      = Except.error (TransformError.typeError "")
    ∧ ∀ res : List TargetSuite,
        transform (fun _ => true) c3Config "app" none (some "ios")
          ≠ Except.ok res := by
  have h1 : transform (fun _ => true) c3Config "app" none (some "ios")
      = Except.error (TransformError.typeError "") := by rfl
  refine ⟨h1, ?_⟩
  intro res h
  rw [h1] at h
  exact Except.noConfusion h

/-- C4 (amended): when no suites are requested and no `(platform, suite)`
pair survives the platform filter (the enumeration accumulator stays
empty), `transform` does not return normally with an empty list: the empty
string splits into a single empty file entry, which exits with a
missing-file error when the bare app directory fails `statSync`, and
otherwise raises a `TypeError` on the undefined platform segment. -/
theorem transform_empty_filter_errors (fsExists : String → Bool)
    (config : ConfigTests) (appArg : String) (platformArg : Option String)
    (h : suiteEnumeration config platformArg = "") :
    transform fsExists config appArg none platformArg
      = Except.error
          (if fsExists (pathJoin [TEST_DIR, appArg, ""]) then
            TransformError.typeError ""
          else TransformError.missingFile "") := by
  unfold transform
  rw [show (none : Option String).getD "" ++ suiteEnumeration config platformArg
      = "" by rw [h]; rfl]
  cases hfs : fsExists (pathJoin [TEST_DIR, appArg, ""]) with
  | true =>
    simp [jsSlice0, jsSplit, splitCharAux, transformFile, hfs,
      List.mapM, List.mapM.loop]
  | false =>
    simp [jsSlice0, jsSplit, splitCharAux, transformFile, hfs,
      List.mapM, List.mapM.loop]

/-- Witness for C4 (amended): the android-only configuration under an `ios`
platform filter, with a filesystem oracle that rejects every path. -/
theorem transform_empty_filter_errors_witness :
    suiteEnumeration c3Config (some "ios") = "" ∧
      transform (fun _ => false) c3Config "appW" none (some "ios")
        = Except.error
            (if (fun _ => false : String → Bool) (pathJoin [TEST_DIR, "appW", ""])
              then TransformError.typeError ""
            else TransformError.missingFile "") :=
  ⟨rfl, transform_empty_filter_errors (fun _ => false) c3Config "appW"
    (some "ios") rfl⟩

/-! ### Counting lemmas for the build pipeline trace -/

theorem countChangesFor_append (p : String) (l1 l2 : List BuildStep) :
    countChangesFor p (l1 ++ l2) = countChangesFor p l1 + countChangesFor p l2 := by
  simp [countChangesFor, List.filter_append]

theorem countChangesFor_appc (p : String) (flags : List String)
    (rest : List BuildStep) :
    countChangesFor p (BuildStep.appc flags :: rest) = countChangesFor p rest := by
  simp [countChangesFor, List.filter_cons, isChangeFor]

theorem countChangesFor_change (p proj file : String) (rest : List BuildStep) :
    countChangesFor p (BuildStep.change proj file :: rest)
      = (if proj = p then 1 else 0) + countChangesFor p rest := by
  by_cases hpq : proj = p <;>
    simp [countChangesFor, List.filter_cons, isChangeFor, hpq] <;> omega

theorem memStr_cons_self (p : String) (m : List String) :
    memStr p (p :: m) = true := by
  simp [memStr]

theorem countChangesFor_marked (app : String) (config : ConfigTests) (p : String) :
    ∀ (suites : List TargetSuite) (tiappMod : List String),
      memStr p tiappMod = true →
      countChangesFor p (buildTestAppsGo app config suites tiappMod) = 0 := by
  intro suites
  induction suites with
  | nil => intro m hm; rfl
  | cons t rest ih =>
    intro m hm
    unfold buildTestAppsGo
    cases hcp : configProj config t.platform t.name with
    | none => rfl
    | some tiProj =>
      by_cases hmem : memStr tiProj m = true
      · simp only [hmem, if_pos, List.cons_append, List.nil_append]
        rw [countChangesFor_appc, countChangesFor_appc]
        exact ih m hm
      · have hne : tiProj ≠ p := by
          intro hEq
          rw [hEq] at hmem
          exact hmem hm
        simp only [hmem, if_neg, Bool.false_eq_true, not_false_eq_true,
          List.cons_append, List.nil_append]
        rw [countChangesFor_change, countChangesFor_appc, countChangesFor_appc]
        have hm2 : memStr p (tiProj :: m) = true := by
          simp [memStr] at hm ⊢
          exact Or.inr hm
        rw [ih (tiProj :: m) hm2, if_neg hne]

theorem countChangesFor_go_le_one (app : String) (config : ConfigTests)
    (p : String) :
    ∀ (suites : List TargetSuite) (m : List String),
      countChangesFor p (buildTestAppsGo app config suites m) ≤ 1 := by
  intro suites
  induction suites with
  | nil => intro m; exact Nat.zero_le 1
  | cons t rest ih =>
    intro m
    unfold buildTestAppsGo
    cases hcp : configProj config t.platform t.name with
    | none => exact Nat.zero_le 1
    | some tiProj =>
      by_cases hmem : memStr tiProj m = true
      · simp only [hmem, if_pos, List.cons_append, List.nil_append]
        rw [countChangesFor_appc, countChangesFor_appc]
        exact ih m
      · simp only [hmem, if_neg, Bool.false_eq_true, not_false_eq_true,
          List.cons_append, List.nil_append]
        rw [countChangesFor_change, countChangesFor_appc, countChangesFor_appc]
        by_cases hpq : tiProj = p
        · rw [if_pos hpq, hpq]
          rw [countChangesFor_marked app config p rest (p :: m)
            (memStr_cons_self p m)]
        · rw [if_neg hpq]
          simpa using ih (tiProj :: m)

/-- Witness for C5: a chunk with an earlier boot match and a trailing
non-matching segment, evaluated concretely. -/
theorem geny_watch_last_match_governs_witness :
    bootMatches [GenyChunkPart.other] = [] ∧
      genyDataCb 10000 ([GenyChunkPart.boot ⟨0, 5⟩]
          ++ GenyChunkPart.boot ⟨9000, 3⟩ :: [GenyChunkPart.other])
        = bootLineCheck 10000 ⟨9000, 3⟩ :=
  ⟨rfl, geny_watch_last_match_governs 10000 [GenyChunkPart.boot ⟨0, 5⟩]
    [GenyChunkPart.other] ⟨9000, 3⟩ rfl⟩

theorem isChangeStep_appc (flags : List String) :
    isChangeStep (BuildStep.appc flags) = false := rfl

theorem isChangeStep_change (proj file : String) :
    isChangeStep (BuildStep.change proj file) = true := rfl

theorem countChanges_append (l1 l2 : List BuildStep) :
    countChanges (l1 ++ l2) = countChanges l1 + countChanges l2 := by
  simp [countChanges, List.filter_append]

theorem countChanges_appc (flags : List String) (rest : List BuildStep) :
    countChanges (BuildStep.appc flags :: rest) = countChanges rest := by
  simp [countChanges, List.filter_cons, isChangeStep]

theorem countChanges_change (proj file : String) (rest : List BuildStep) :
    countChanges (BuildStep.change proj file :: rest) = 1 + countChanges rest := by
  simp [countChanges, List.filter_cons, isChangeStep]
  omega

/-- C2 counterexample: three targets of which the first two share the
project `suiteA/App` while the third references the distinct project
`suiteB/App`; because the patch memo keys on the project *name* alone, the
pipeline executes only one descriptor patch instead of the claimed two. -/
theorem buildTestApps_shared_project_patch_cex :
    projDirOf "app" c2Config ⟨"a1", "suiteA", "android"⟩
        = projDirOf "app" c2Config ⟨"a2", "suiteA", "ios"⟩
    ∧ projDirOf "app" c2Config ⟨"a3", "suiteB", "android"⟩
        ≠ projDirOf "app" c2Config ⟨"a1", "suiteA", "android"⟩
    ∧ countChanges (buildTestApps "app" c2Config c2Suites (some "9.2.0.GA")) = 1 := by
  refine ⟨rfl, by decide, rfl⟩

/-- C2 (amended): the descriptor-patch step runs at most once per memo key —
the project name — hence at most once per distinct project; and for three
targets of which two share a project, the patch runs exactly twice provided
the third target's project *name* differs from the shared one (the memo
cannot tell apart distinct projects that reuse a name). -/
theorem buildTestApps_patch_once_per_project :
    (∀ (app : String) (config : ConfigTests) (suites : List TargetSuite)
        (tiSdk : Option String) (p : String),
        countChangesFor p (buildTestApps app config suites tiSdk) ≤ 1)
    ∧ (∀ (app sdk P Q : String) (config : ConfigTests) (t1 t2 t3 : TargetSuite),
        sdk ≠ "" →
        configProj config t1.platform t1.name = some P →
        configProj config t2.platform t2.name = some P →
        configProj config t3.platform t3.name = some Q →
        P ≠ Q →
        countChanges (buildTestApps app config [t1, t2, t3] (some sdk)) = 2) := by
  constructor
  · intro app config suites tiSdk p
    unfold buildTestApps
    cases hT : strTruthy tiSdk with
    | false => exact Nat.zero_le 1
    | true =>
      simp only [Bool.not_true, Bool.false_eq_true, if_false]
      rw [countChangesFor_appc]
      exact countChangesFor_go_le_one app config p suites []
  · intro app sdk P Q config t1 t2 t3 hsdk h1 h2 h3 hPQ
    have hT : strTruthy (some sdk) = true := by
      simp [strTruthy]
      exact hsdk
    have hbeqPP : (P == P) = true := beq_self_eq_true P
    have hbeqPQ : (P == Q) = false := beq_eq_false_iff_ne.mpr hPQ
    unfold buildTestApps
    rw [hT]
    simp only [Bool.not_true, Bool.false_eq_true, if_false]
    rw [countChanges_appc]
    unfold buildTestAppsGo
    rw [h1]
    simp only [memStr, List.any_nil, List.any_cons, Bool.or_false, hbeqPP,
      hbeqPQ, Bool.false_eq_true, if_false, if_true]
    unfold buildTestAppsGo
    rw [h2]
    simp only [memStr, List.any_nil, List.any_cons, Bool.or_false, hbeqPP,
      hbeqPQ, Bool.false_eq_true, if_false, if_true]
    unfold buildTestAppsGo
    rw [h3]
    simp only [memStr, List.any_nil, List.any_cons, Bool.or_false, hbeqPP,
      hbeqPQ, Bool.false_eq_true, if_false, if_true]
    simp only [List.cons_append, List.nil_append, countChanges_append,
      countChanges_appc, countChanges_change]
    rfl

/-- Witness for C2 (amended): two targets sharing project `A` and a third
with the distinctly named project `B` yield exactly two patches. -/
theorem buildTestApps_patch_once_per_project_witness :
    ("9.2.0.GA" : String) ≠ "" ∧ ("A" : String) ≠ "B" ∧
      countChanges (buildTestApps "app" c2wConfig
        [⟨"x", "suiteA", "android"⟩, ⟨"x", "suiteA", "android"⟩,
         ⟨"y", "suiteB", "android"⟩] (some "9.2.0.GA")) = 2 :=
  ⟨by decide, by decide,
    buildTestApps_patch_once_per_project.2 "app" "9.2.0.GA" "A" "B" c2wConfig
      ⟨"x", "suiteA", "android"⟩ ⟨"x", "suiteA", "android"⟩
      ⟨"y", "suiteB", "android"⟩ (by decide) rfl rfl rfl (by decide)⟩

theorem buildTestAppsGo_filter_nonchange (app : String) (config : ConfigTests) :
    ∀ (suites : List TargetSuite) (m : List String),
      (∀ t ∈ suites, (configProj config t.platform t.name).isSome = true) →
      (buildTestAppsGo app config suites m).filter (fun st => !(isChangeStep st))
        = suites.flatMap (cleanBuildStepsOf app config) := by
  intro suites
  induction suites with
  | nil => intro m hp; rfl
  | cons t rest ih =>
    intro m hp
    have ht : (configProj config t.platform t.name).isSome = true :=
      hp t (List.mem_cons_self t rest)
    obtain ⟨tiProj, hcp⟩ := Option.isSome_iff_exists.mp ht
    have hrest : ∀ t2 ∈ rest, (configProj config t2.platform t2.name).isSome = true :=
      fun t2 ht2 => hp t2 (List.mem_cons_of_mem t ht2)
    have hcb : cleanBuildStepsOf app config t
        = [BuildStep.appc ["ti", "clean", "--platforms", t.platform,
            "--project-dir", getAbsolutePath app (pathJoin [t.name, tiProj])],
           BuildStep.appc ["run", "--platform", t.platform, "--project-dir",
            getAbsolutePath app (pathJoin [t.name, tiProj]), "--build-only"]] := by
      unfold cleanBuildStepsOf
      rw [hcp]
    unfold buildTestAppsGo
    rw [hcp, List.flatMap_cons, hcb]
    by_cases hmem : memStr tiProj m = true
    · simp only [hmem, if_pos, List.cons_append, List.nil_append]
      simp [List.filter_cons, isChangeStep_appc, isChangeStep_change]
      rw [ih m hrest]
    · simp only [hmem, if_neg, Bool.false_eq_true, not_false_eq_true,
        List.cons_append, List.nil_append]
      simp [List.filter_cons, isChangeStep_appc, isChangeStep_change]
      rw [ih (tiProj :: m) hrest]

/-- C6: with a toolchain version given and every target's project resolvable,
the build pipeline's external steps are the toolchain-select step first and
then, per target in resolution order, that target's clean step immediately
followed by its build step — strictly sequential (the trace is the promise
chain, whose every step starts only from the previous step's process exit)
and never interleaved across targets. -/
theorem buildTestApps_sequencing (app sdk : String) (config : ConfigTests)
    (suites : List TargetSuite) (hsdk : sdk ≠ "")
    (hproj : ∀ t ∈ suites, (configProj config t.platform t.name).isSome = true) :
    (buildTestApps app config suites (some sdk)).filter
        (fun st => !(isChangeStep st))
      = BuildStep.appc ["ti", "sdk", "select", sdk]
          :: suites.flatMap (cleanBuildStepsOf app config) := by
  have hT : strTruthy (some sdk) = true := by
    simp [strTruthy]
    exact hsdk
  unfold buildTestApps
  rw [hT]
  simp [Option.getD_some, List.filter_cons, isChangeStep_appc]
  rw [buildTestAppsGo_filter_nonchange app config suites [] hproj]

/-- Witness for C6: the shared-project configuration evaluated concretely. -/
theorem buildTestApps_sequencing_witness :
    ("9.2.0.GA" : String) ≠ "" ∧
      (∀ t ∈ c2Suites, (configProj c2Config t.platform t.name).isSome = true) ∧
      (buildTestApps "app" c2Config c2Suites (some "9.2.0.GA")).filter
          (fun st => !(isChangeStep st))
        = BuildStep.appc ["ti", "sdk", "select", "9.2.0.GA"]
            :: c2Suites.flatMap (cleanBuildStepsOf "app" c2Config) :=
  ⟨by decide, by decide,
    buildTestApps_sequencing "app" "9.2.0.GA" c2Config c2Suites (by decide)
      (by decide)⟩

/-- C7: the `appc` helper's exit handler advances the pipeline on every
process exit: the exit code is ignored, a non-zero code is not distinguished
from zero and never fails the run. -/
theorem appc_exit_always_advances :
    ∀ code : Int, appcOnExit code = ExitAction.advance
      ∧ appcOnExit code ≠ ExitAction.fail
      ∧ appcOnExit code = appcOnExit 0 :=
  fun _ => ⟨rfl, fun h => ExitAction.noConfusion h, rfl⟩

/-- C10: calling `killAppium` before any `runAppium` dereferences the
still-null module-global server handle (reading `.pid` on win32, calling
`.kill()` elsewhere) and throws instead of being a no-op; once `runAppium`
has assigned a spawned handle the call no longer dereferences null. -/
theorem killAppium_null_before_run :
    (∀ isWin32 : Bool, killAppium isWin32 appiumProcInit = KillOutcome.nullDeref)
    ∧ (∀ (isWin32 : Bool) (p : ProcHandle),
        killAppium isWin32 (runAppiumSet p) ≠ KillOutcome.nullDeref) := by
  constructor
  · intro w; rfl
  · intro w p h
    cases w <;> simp [killAppium, runAppiumSet] at h

/-! ### Association-list lemmas for the capability state -/

theorem lookup_replaceFirst_ne {β : Type} (l : List (String × β)) (k k2 : String)
    (v : β) (h : k ≠ k2) :
    List.lookup k (replaceFirst l k2 v) = List.lookup k l := by
  induction l with
  | nil => rfl
  | cons e rest ih =>
    obtain ⟨k3, v3⟩ := e
    by_cases h3 : k3 = k2
    · subst h3
      have hk : (k == k3) = false := beq_eq_false_iff_ne.mpr h
      simp [replaceFirst, List.lookup, hk]
    · have hne : (k3 == k2) = false := beq_eq_false_iff_ne.mpr h3
      cases hkk : (k == k3) <;> simp [replaceFirst, hne, List.lookup, hkk, ih]

theorem lookup_replaceFirst_self {β : Type} (l : List (String × β)) (k : String)
    (v : β) :
    List.lookup k (replaceFirst l k v) = (List.lookup k l).map fun _ => v := by
  induction l with
  | nil => rfl
  | cons e rest ih =>
    obtain ⟨k3, v3⟩ := e
    by_cases h3 : k3 = k
    · subst h3
      simp [replaceFirst, List.lookup]
    · have h3b : (k3 == k) = false := beq_eq_false_iff_ne.mpr h3
      have h3b2 : (k == k3) = false := beq_eq_false_iff_ne.mpr (Ne.symm h3)
      simp [replaceFirst, List.lookup, h3b, h3b2, ih]

theorem lookup_append_str {β : Type} (l1 l2 : List (String × β)) (k : String) :
    List.lookup k (l1 ++ l2)
      = match List.lookup k l1 with
        | some v => some v
        | none => List.lookup k l2 := by
  induction l1 with
  | nil => rfl
  | cons e rest ih =>
    obtain ⟨k3, v3⟩ := e
    cases hkk : (k == k3) <;> simp [List.lookup, hkk, ih]

theorem capHas_eq_isSome (c : Cap) (k : String) :
    capHas c k = (List.lookup k c).isSome := by
  induction c with
  | nil => rfl
  | cons e rest ih =>
    obtain ⟨k3, v3⟩ := e
    by_cases h : k3 = k
    · subst h
      simp [capHas, List.lookup]
    · have h1 : (k3 == k) = false := beq_eq_false_iff_ne.mpr h
      have h2 : (k == k3) = false := beq_eq_false_iff_ne.mpr (Ne.symm h)
      simp only [capHas, List.any_cons, h1, Bool.false_or, List.lookup, h2]
      exact ih

theorem lookup_capSet_self (c : Cap) (k v : String) :
    List.lookup k (capSet c k v) = some v := by
  unfold capSet
  by_cases h : capHas c k = true
  · rw [if_pos h, lookup_replaceFirst_self]
    rw [capHas_eq_isSome] at h
    cases hl : List.lookup k c with
    | none => rw [hl] at h; simp at h
    | some v0 => simp
  · rw [if_neg h, lookup_append_str]
    rw [capHas_eq_isSome] at h
    cases hl : List.lookup k c with
    | none => simp [List.lookup]
    | some v0 => rw [hl] at h; simp at h

theorem lookup_capSet_ne (c : Cap) (k k2 v : String) (h : k ≠ k2) :
    List.lookup k (capSet c k2 v) = List.lookup k c := by
  unfold capSet
  by_cases hh : capHas c k2 = true
  · rw [if_pos hh, lookup_replaceFirst_ne _ _ _ _ h]
  · rw [if_neg hh, lookup_append_str]
    have hnone : List.lookup k [(k2, v)] = none := by
      simp [List.lookup, beq_eq_false_iff_ne.mpr h]
    cases hl : List.lookup k c <;> simp [hl, hnone]

theorem lookup_enrichCaps_ne (app : String) (t : TargetSuite) (cs : SuiteConfig)
    (d : Cap) (k : String) (hk : ¬ k ∈ enrichKeys) :
    List.lookup k (enrichCaps app t cs d) = List.lookup k d := by
  simp only [enrichKeys, List.mem_cons, List.mem_singleton, not_or,
    List.not_mem_nil, or_false] at hk
  obtain ⟨h1, h2, h3, h4⟩ := hk
  unfold enrichCaps
  by_cases hp1 : (t.platform == "ios") = true
  · rw [if_pos hp1, lookup_capSet_ne _ _ _ _ h2, lookup_capSet_ne _ _ _ _ h1]
  · rw [if_neg hp1]
    by_cases hp2 : (t.platform == "android") = true
    · rw [if_pos hp2, lookup_capSet_ne _ _ _ _ h2, lookup_capSet_ne _ _ _ _ h4,
        lookup_capSet_ne _ _ _ _ h3, lookup_capSet_ne _ _ _ _ h1]
    · rw [if_neg hp2]
      by_cases hp3 : (t.platform == "windows") = true
      · rw [if_pos hp3, lookup_capSet_ne _ _ _ _ h1]
      · rw [if_neg hp3]

theorem capsAt_updateCaps (config : ConfigTests) (pl : String)
    (tests : PlatformEntries) (d c : Cap)
    (hpl : List.lookup pl config = some tests)
    (hd : List.lookup "desiredCapabilities" tests = some (ConfigVal.caps d))
    (pl2 : String) :
    capsAt (updateCaps config pl c) pl2
      = if pl2 = pl then some c else capsAt config pl2 := by
  unfold updateCaps capsAt
  rw [hpl]
  by_cases h2 : pl2 = pl
  · subst h2
    rw [if_pos rfl, lookup_replaceFirst_self, hpl]
    simp [lookup_replaceFirst_self, hd]
  · rw [if_neg h2, lookup_replaceFirst_ne _ _ _ _ h2]

theorem devicesOf_updateCaps (config : ConfigTests) (pl : String)
    (tests : PlatformEntries) (d c : Cap)
    (hpl : List.lookup pl config = some tests)
    (hd : List.lookup "desiredCapabilities" tests = some (ConfigVal.caps d))
    (t : TargetSuite) :
    devicesOf (updateCaps config pl c) t = devicesOf config t := by
  unfold updateCaps devicesOf
  rw [hpl]
  by_cases h2 : t.platform = pl
  · subst h2
    rw [lookup_replaceFirst_self, hpl]
    simp only [Option.map_some']
    by_cases h3 : t.name = "desiredCapabilities"
    · rw [h3, lookup_replaceFirst_self, hd]
      simp
    · rw [lookup_replaceFirst_ne _ _ _ _ h3]
  · rw [lookup_replaceFirst_ne _ _ _ _ h2]

theorem createTestsGo_preserves_other_keys (app : String) :
    ∀ (suites : List TargetSuite) (config : ConfigTests) (pairs : List TestPair)
      (config2 : ConfigTests),
      createTestsGo app suites config = some (pairs, config2) →
      ∀ (pl k : String), ¬ k ∈ enrichKeys →
        (capsAt config2 pl).bind (List.lookup k)
          = (capsAt config pl).bind (List.lookup k) := by
  intro suites
  induction suites with
  | nil =>
    intro config pairs config2 h pl k hk
    simp only [createTestsGo, Option.some.injEq, Prod.mk.injEq] at h
    rw [← h.2]
  | cons t rest ih =>
    intro config pairs config2 h pl k hk
    rw [createTestsGo] at h
    cases hlp : List.lookup t.platform config with
    | none => simp only [hlp] at h; exact Option.noConfusion h
    | some tests =>
      simp only [hlp] at h
      cases hdc : List.lookup "desiredCapabilities" tests with
      | none => simp only [hdc] at h; exact Option.noConfusion h
      | some v =>
        simp only [hdc] at h
        cases v with
        | suiteDef s => simp at h
        | caps desiredCap =>
          cases hnm : List.lookup t.name tests with
          | none => simp only [hnm] at h; exact Option.noConfusion h
          | some v2 =>
            simp only [hnm] at h
            cases v2 with
            | caps c2 => simp at h
            | suiteDef configSuite =>
              cases hrec : createTestsGo app rest
                  (updateCaps config t.platform
                    (enrichCaps app t configSuite desiredCap)) with
              | none => simp only [hrec] at h; exact Option.noConfusion h
              | some pr =>
                obtain ⟨restPairs, configF⟩ := pr
                simp only [hrec, Option.some.injEq, Prod.mk.injEq] at h
                have hstep := ih _ _ _ hrec pl k hk
                rw [h.2] at hstep
                rw [hstep]
                rw [capsAt_updateCaps config t.platform tests desiredCap _ hlp hdc pl]
                by_cases hpl2 : pl = t.platform
                · rw [if_pos hpl2]
                  have hat : capsAt config pl = some desiredCap := by
                    simp [capsAt, hpl2, hlp, hdc]
                  rw [hat]
                  simp only [Option.some_bind]
                  exact lookup_enrichCaps_ne app t configSuite desiredCap k hk
                · rw [if_neg hpl2]

theorem createTestsGo_matrix (app : String) :
    ∀ (suites : List TargetSuite) (config : ConfigTests) (pairs : List TestPair)
      (config2 : ConfigTests),
      createTestsGo app suites config = some (pairs, config2) →
      pairs.map (fun pr => (pr.suite, List.lookup "deviceName" pr.cap,
          List.lookup "platformVersion" pr.cap))
        = suites.flatMap (fun t => ((devicesOf config t).getD []).map
            fun dv => (t.abs, some dv.deviceName, some dv.platformVersion)) := by
  intro suites
  induction suites with
  | nil =>
    intro config pairs config2 h
    simp only [createTestsGo, Option.some.injEq, Prod.mk.injEq] at h
    rw [← h.1]
    rfl
  | cons t rest ih =>
    intro config pairs config2 h
    rw [createTestsGo] at h
    cases hlp : List.lookup t.platform config with
    | none => simp only [hlp] at h; exact Option.noConfusion h
    | some tests =>
      simp only [hlp] at h
      cases hdc : List.lookup "desiredCapabilities" tests with
      | none => simp only [hdc] at h; exact Option.noConfusion h
      | some v =>
        simp only [hdc] at h
        cases v with
        | suiteDef s => simp at h
        | caps desiredCap =>
          cases hnm : List.lookup t.name tests with
          | none => simp only [hnm] at h; exact Option.noConfusion h
          | some v2 =>
            simp only [hnm] at h
            cases v2 with
            | caps c2 => simp at h
            | suiteDef configSuite =>
              cases hrec : createTestsGo app rest
                  (updateCaps config t.platform
                    (enrichCaps app t configSuite desiredCap)) with
              | none => simp only [hrec] at h; exact Option.noConfusion h
              | some pr =>
                obtain ⟨restPairs, configF⟩ := pr
                simp only [hrec, Option.some.injEq, Prod.mk.injEq] at h
                rw [← h.1, List.map_append, List.flatMap_cons]
                have hdev : devicesOf config t = some configSuite.testDevices := by
                  simp [devicesOf, hlp, hnm]
                have hhead : (devicePairs t.abs
                      (enrichCaps app t configSuite desiredCap)
                      configSuite.testDevices).map
                    (fun pr => (pr.suite, List.lookup "deviceName" pr.cap,
                      List.lookup "platformVersion" pr.cap))
                    = configSuite.testDevices.map
                        fun dv => (t.abs, some dv.deviceName, some dv.platformVersion) := by
                  unfold devicePairs
                  rw [List.map_map]
                  refine List.map_congr_left ?_
                  intro dv hdv
                  simp only [Function.comp_apply]
                  rw [lookup_capSet_self]
                  rw [lookup_capSet_ne _ _ _ _ (by decide), lookup_capSet_self]
                have htail := ih _ _ _ hrec
                have hfun : (fun t2 : TargetSuite =>
                      ((devicesOf (updateCaps config t.platform
                          (enrichCaps app t configSuite desiredCap)) t2).getD []).map
                        fun dv => (t2.abs, some dv.deviceName, some dv.platformVersion))
                    = fun t2 => ((devicesOf config t2).getD []).map
                        fun dv => (t2.abs, some dv.deviceName, some dv.platformVersion) := by
                  funext t2
                  rw [devicesOf_updateCaps config t.platform tests desiredCap _ hlp hdc t2]
                rw [hfun] at htail
                rw [hhead, htail, hdev]
                rfl

/-- C8 counterexample: `createTests` on one android target writes the
platform enrichment through to the configuration's base capability object —
after the call the base no longer holds exactly the entries it held
before. -/
theorem createTests_mutates_base_cex :
    createTests "app" c8Config c8Targets = some (c8Pairs, c8Config2)
    ∧ capsAt c8Config "android" = some [("noReset", "true")]
    ∧ capsAt c8Config2 "android" = some c8Enriched
    ∧ c8Enriched ≠ [("noReset", "true")] :=
  ⟨rfl, rfl, rfl, by decide⟩

/-- C8 (amended): the per-device overlays are merged into fresh copies, so
`deviceName`/`platformVersion` never reach the base object, and the only
base keys `createTests` mutates are the enrichment keys `platformName`,
`app`, `appPackage` and `appActivity` — every other entry of every
platform's base capability object is preserved across the run. -/
theorem createTests_base_mutation_scope (app : String) (config : ConfigTests)
    (suites : List TargetSuite) (pairs : List TestPair) (config2 : ConfigTests)
    (h : createTests app config suites = some (pairs, config2))
    (pl k : String) (hk : ¬ k ∈ enrichKeys) :
    (capsAt config2 pl).bind (List.lookup k)
      = (capsAt config pl).bind (List.lookup k) :=
  createTestsGo_preserves_other_keys app suites config pairs config2 h pl k hk

/-- Witness for C8 (amended): the non-enrichment key `noReset` keeps its
value through the concrete run on `c8Config`. -/
theorem createTests_base_mutation_scope_witness :
    ¬ ("noReset" : String) ∈ enrichKeys ∧
      (capsAt c8Config2 "android").bind (List.lookup "noReset")
        = (capsAt c8Config "android").bind (List.lookup "noReset") :=
  ⟨by decide, createTests_base_mutation_scope "app" c8Config c8Targets c8Pairs
    c8Config2 rfl "android" "noReset" (by decide)⟩

/-- C9: for the target list it processes, `createTests` emits — in target
order, then declared-device order within each target — exactly one output
pair per declared device, each pair carrying that device's name and OS
version in its own capability map; pairs whose maps show different device
entries are distinct objects (the per-device copy-on-write). -/
theorem createTests_matrix_shape (app : String) (config : ConfigTests)
    (suites : List TargetSuite) (pairs : List TestPair) (config2 : ConfigTests)
    (h : createTests app config suites = some (pairs, config2)) :
    pairs.map (fun pr => (pr.suite, List.lookup "deviceName" pr.cap,
        List.lookup "platformVersion" pr.cap))
      = suites.flatMap (fun t => ((devicesOf config t).getD []).map
          fun dv => (t.abs, some dv.deviceName, some dv.platformVersion))
    ∧ ∀ p1 ∈ pairs, ∀ p2 ∈ pairs,
        List.lookup "deviceName" p1.cap ≠ List.lookup "deviceName" p2.cap →
        p1.cap ≠ p2.cap :=
  ⟨createTestsGo_matrix app suites config pairs config2 h,
    fun _ _ _ _ hne hcap => hne (by rw [hcap])⟩

/-- Witness for C9: a target with two declared devices yields exactly two
pairs with the respective device names and versions. -/
theorem createTests_matrix_shape_witness :
    c9Pairs.map (fun pr => (pr.suite, List.lookup "deviceName" pr.cap,
        List.lookup "platformVersion" pr.cap))
      = c9Targets.flatMap (fun t => ((devicesOf c9Config t).getD []).map
          fun dv => (t.abs, some dv.deviceName, some dv.platformVersion)) :=
  (createTests_matrix_shape "app" c9Config c9Targets c9Pairs c9Config2 rfl).1
